import Mathlib

/-!
Verification of the event-deduplication and image-IO-wizard core of the
repository (EventBucket.cxx and GUI/Model/ImageIOWizardModel.h).

Part one embeds `EventBucket` directly from its implementation file.  An ITK
event object carries a dynamic class in a single-inheritance hierarchy; we
represent an event kind by the path of class tags from the root event class,
so `a.CheckEvent(b)` (true when `b`'s dynamic class equals or derives from
`a`'s class, via `dynamic_cast`) becomes "the path of `a` is an initial
segment of the path of `b`".  A source (`const itk::Object *`) is an opaque
identity or NULL, represented as `Option Nat`.  The bucket's `std::set` keys
entries by the freshly cloned object pointers (`evt.MakeObject()`), so the
container itself never merges two insertions; a plain list of entries is a
faithful model, with `PutEvent`'s own `HasEvent` guard as the only
deduplication, exactly as in the source.

Part two embeds the wizard-model operations whose claims we check.  Their
bodies live in ImageIOWizardModel.cxx, which is not among the repository
files: only the declarations and their doc comments in ImageIOWizardModel.h
are.  Those operations are therefore modelled from the spec (and the header's
own doc comments), as noted on each definition.
-/

/-- An event kind: the path of class tags from the root of the (single
inheritance) ITK event hierarchy down to the dynamic class of the event. -/
abbrev EventKind := List Nat

/-- The identity of the object that raised an event (`const itk::Object *`);
`none` models the NULL pointer. -/
abbrev SourcePtr := Option Nat

/-- One stored bucket entry: the cloned event object's kind and the source
pointer (`BucketEntry` is `std::pair<itk::EventObject *, const itk::Object *>`). -/
abbrev BucketEntry := EventKind × SourcePtr

/-- Whether `anc` is an ancestor-or-equal class of `k` in the event hierarchy:
its path is an initial segment of the path of `k`. -/
def isAncestorOf : EventKind → EventKind → Bool
  | [], _ => true
  | _ :: _, [] => false
  | a :: as, b :: bs => a == b && isAncestorOf as bs

/-- The ITK virtual `evt.CheckEvent(e)`: true when `e`'s dynamic class can be
cast to `evt`'s class, that is when `evt`'s class is an ancestor-or-equal of
`e`'s class. -/
def CheckEvent (evt e : EventKind) : Bool := isAncestorOf evt e

/-- The `EventBucket` data structure: its one field `m_Bucket` holds the
stored entries. -/
structure EventBucket where
  m_Bucket : List BucketEntry
  deriving DecidableEq

/-- A freshly constructed bucket (`EventBucket::EventBucket`). -/
def EventBucket.empty : EventBucket := ⟨[]⟩

/-- `EventBucket::Clear`: deletes the stored clones and empties the container. -/
def EventBucket.Clear (_b : EventBucket) : EventBucket := EventBucket.empty

/-- The linear search of `EventBucket::HasEvent`, with the loop's early
return: an entry matches when `evt.CheckEvent(entry.first)` holds and the
queried source is NULL or equal to the stored source. -/
def hasEventIn : List BucketEntry → EventKind → SourcePtr → Bool
  | [], _, _ => false
  | entry :: rest, evt, source =>
    if CheckEvent evt entry.1 && (source == none || source == entry.2) then true
    else hasEventIn rest evt source

/-- `EventBucket::HasEvent(evt, source)`. -/
def EventBucket.HasEvent (b : EventBucket) (evt : EventKind) (source : SourcePtr) : Bool :=
  hasEventIn b.m_Bucket evt source

/-- `EventBucket::IsEmpty`: `m_Bucket.size() == 0`. -/
def EventBucket.IsEmpty (b : EventBucket) : Bool := b.m_Bucket.length == 0

/-- `EventBucket::PutEvent(evt, source)`: unless `HasEvent(evt, source)`
already holds, stores a clone of the event (`evt.MakeObject()`, same dynamic
class, hence the same kind value) together with the source. -/
def EventBucket.PutEvent (b : EventBucket) (evt : EventKind) (source : SourcePtr) : EventBucket :=
  if b.HasEvent evt source then b else ⟨(evt, source) :: b.m_Bucket⟩

/-- The `HasEvent` method call as a state transformer: the method is `const`
and its body only reads `m_Bucket`, so the state component is the receiver
unchanged. -/
def EventBucket.HasEventRun (b : EventBucket) (evt : EventKind) (source : SourcePtr) :
    Bool × EventBucket :=
  (b.HasEvent evt source, b)

/-- The `IsEmpty` method call as a state transformer: `const`, reads only
`m_Bucket.size()`. -/
def EventBucket.IsEmptyRun (b : EventBucket) : Bool × EventBucket :=
  (b.IsEmpty, b)

/-- The spec sentence's matching condition for `HasEvent`, taken literally:
"some stored entry's kind matches `kind` via hierarchical matching (stored
kind is equal to or a generalization of the queried kind) and (queried source
is any or equals the stored source)".  Written from the spec's words, to be
compared with the implementation's `EventBucket.HasEvent`. -/
def specHasEvent (b : EventBucket) (evt : EventKind) (source : SourcePtr) : Bool :=
  b.m_Bucket.any (fun e => isAncestorOf e.1 evt && (source == none || source == e.2))

/-- Bucket states reachable from a freshly constructed bucket through the
public operations that change state (`PutEvent` and `Clear`; `HasEvent` and
`IsEmpty` are `const`). -/
inductive Reachable : EventBucket → Prop
  | empty : Reachable EventBucket.empty
  | put (b : EventBucket) (k : EventKind) (s : SourcePtr) :
      Reachable b → Reachable (b.PutEvent k s)
  | clear (b : EventBucket) : Reachable b → Reachable b.Clear

/-- One call of the history of state-changing operations on a bucket. -/
inductive BucketOp where
  | putOp : EventKind → SourcePtr → BucketOp
  | clearOp : BucketOp

/-- Run one operation, also recording in the flag whether a `PutEvent` call
whose pair was not already matched by the bucket contents has occurred since
the last `Clear` (or since construction). -/
def traceStep : Bool × EventBucket → BucketOp → Bool × EventBucket
  | (flag, b), BucketOp.putOp k s => (flag || !b.HasEvent k s, b.PutEvent k s)
  | (_, b), BucketOp.clearOp => (false, b.Clear)

/-- Run a whole operation history from a freshly constructed bucket. -/
def runTrace (ops : List BucketOp) : Bool × EventBucket :=
  ops.foldl traceStep (false, EventBucket.empty)

/-- `GuidedNativeImageIO::FileFormat`: the supported formats, with the
enum's final `FORMAT_COUNT` member doubling as "format undetermined". -/
inductive FileFormat where
  | fmt : Nat → FileFormat
  | FORMAT_COUNT : FileFormat
  deriving DecidableEq

/-- `ImageIOWizardModel::Mode`, fixed at wizard construction. -/
inductive Mode where
  | LOAD : Mode
  | SAVE : Mode
  deriving DecidableEq

/-- The external collaborators `GuessFileFormat` consults: the auxiliary
hints registry, the filesystem existence check, the guided-I/O magic-number
sniffer, the extension table of the registered formats, and the save
delegate's declared default format. -/
structure DetectorEnv where
  hints : String → Option FileFormat
  fileExistsOn : String → Bool
  sniffMagic : String → Option FileFormat
  extMatch : String → Option FileFormat
  saveDefault : FileFormat

/-- Modelled from the spec: the body of `ImageIOWizardModel::GuessFileFormat`
is in ImageIOWizardModel.cxx, which is not among the repository files; only
its declaration and doc comment (ImageIOWizardModel.h, lines 96-104) are.
Following that doc comment and the spec's detection algorithm: the existence
flag is computed once up front; in Load mode a file that does not exist
yields `FORMAT_COUNT` (failure to determine the format) at once; otherwise
the registry hint for the path wins, then (Load mode, existing file) the
magic number read through the guided-I/O service, then the filename
extension, and in Save mode the save delegate's default format is the final
fallback.  The function is total, so the contract's "never throws" is
inherent in the embedding. -/
def GuessFileFormat (env : DetectorEnv) (mode : Mode) (fname : String) : FileFormat × Bool :=
  let ex := env.fileExistsOn fname
  if mode = Mode.LOAD ∧ ex = false then (FileFormat.FORMAT_COUNT, ex)
  else
    match env.hints fname with
    | some f => (f, ex)
    | none =>
      match (if mode = Mode.LOAD ∧ ex = true then env.sniffMagic fname else none) with
      | some f => (f, ex)
      | none =>
        match env.extMatch fname with
        | some f => (f, ex)
        | none =>
          (if mode = Mode.SAVE then env.saveDefault else FileFormat.FORMAT_COUNT, ex)

/-- The last two steps of the detection algorithm (extension matching, then
the save-mode default fallback), named so the ordering theorem can say that
they are what remains once hint and magic number have not matched. -/
def extensionFallback (env : DetectorEnv) (mode : Mode) (fname : String) : FileFormat :=
  match env.extMatch fname with
  | some f => f
  | none => if mode = Mode.SAVE then env.saveDefault else FileFormat.FORMAT_COUNT

/-- The wizard-model state the load-path claims are about: the warnings list
(`m_Warnings`, cleared on `Reset`, appended to during a load) and the
loaded-image handle (`m_LoadedImage`, `none` models the null pointer). -/
structure WizardState where
  warnings : List String
  loadedImage : Option Nat
  deriving DecidableEq

/-- A structured load failure (`DecodeError` carries the underlying
diagnostic text). -/
inductive LoadError where
  | DecodeError : String → LoadError
  | ValidationError : LoadError
  deriving DecidableEq

/-- The external collaborators of `LoadImage`: the guided-I/O decode (the
image plus its non-fatal warnings, or a diagnostic), the load delegate's
validity check, and the diagnostic the delegate produces when validation
fails. -/
structure LoadEnv where
  decode : String → Except String (Nat × List String)
  checkValidity : Nat → Bool
  validityMsg : String

/-- Modelled from the spec: the body of `ImageIOWizardModel::LoadImage` is in
ImageIOWizardModel.cxx, which is not among the repository files; only its
declaration (ImageIOWizardModel.h, lines 144-148) is.  Per the spec: a decode
failure fails the operation with `DecodeError` carrying the diagnostic and
leaves the model state untouched; on decode success the non-fatal warnings
are appended, then the delegate's validity check runs — on failure the
operation fails with `ValidationError`, the validation diagnostic is appended
to the warnings, and the partially loaded image is discarded (the
loaded-image handle is untouched); on success the handle is set. -/
def LoadImage (env : LoadEnv) (st : WizardState) (fname : String) :
    Except LoadError Unit × WizardState :=
  match env.decode fname with
  | Except.error msg => (Except.error (LoadError.DecodeError msg), st)
  | Except.ok (img, warns) =>
    if env.checkValidity img then
      (Except.ok (), WizardState.mk (st.warnings ++ warns) (some img))
    else
      (Except.error LoadError.ValidationError,
        WizardState.mk (st.warnings ++ warns ++ [env.validityMsg]) st.loadedImage)

/-- Modelled from the spec: `ImageIOWizardModel::IsImageLoaded` (declared at
ImageIOWizardModel.h, lines 160-163) is true iff a load has completed
successfully and no `Reset` has occurred since, that is iff the loaded-image
handle is set. -/
def IsImageLoaded (st : WizardState) : Bool := st.loadedImage.isSome

/-- Modelled from the spec: `ImageIOWizardModel::Reset` clears the
per-operation state — of the fields modelled here, the warnings list and the
loaded-image handle. -/
def Reset (_st : WizardState) : WizardState := WizardState.mk [] none

/-- The DICOM-series error of the spec's taxonomy. -/
inductive DicomError where
  | IndexOutOfRange : DicomError
  deriving DecidableEq

/-- Modelled from the spec: the body of `ImageIOWizardModel::LoadDicomSeries`
is in ImageIOWizardModel.cxx, which is not among the repository files; only
its declaration (ImageIOWizardModel.h, lines 180-183) is.  Per the spec it
requires `0 <= series < seriesCount` (the number of series enumerated into
`m_DicomContents`), fails with `IndexOutOfRange` otherwise, and on success
delegates to the guided-I/O service to materialize the image from the
selected series.  The index is a C++ `int`, modelled as `Int`. -/
def LoadDicomSeries (materializeSeries : Nat → Nat) (seriesCount : Nat) (series : Int) :
    Except DicomError Nat :=
  if 0 ≤ series ∧ series < (seriesCount : Int) then
    Except.ok (materializeSeries series.toNat)
  else
    Except.error DicomError.IndexOutOfRange

/-- A concrete filename for the closed instances below. -/
def fnameA : String := "scan.nii"

/-- A concrete decode diagnostic. -/
def msgBad : String := "could not parse image header"

/-- A concrete validation diagnostic. -/
def msgGeom : String := "image geometry does not match the reference image"

/-- A concrete non-fatal warning left over from an earlier successful load. -/
def wStale : String := "unusual voxel spacing"

/-- A load environment whose decode always fails, for the closed instances. -/
def envFail : LoadEnv := ⟨fun _ => Except.error msgBad, fun _ => true, msgGeom⟩

/-- A model state after an earlier successful load: one accumulated warning
and a loaded image. -/
def stPrior : WizardState := ⟨[wStale], some 7⟩

/-- A detector environment with no hints and no existing file, for the closed
instances. -/
def envMissing : DetectorEnv :=
  ⟨fun _ => none, fun _ => false, fun _ => none, fun _ => none, FileFormat.fmt 1⟩

/-- A detector environment with a hint for every path whose extension table
disagrees with the hint, and whose files do not exist, for the closed
instances. -/
def envHinted : DetectorEnv :=
  ⟨fun _ => some (FileFormat.fmt 3), fun _ => false, fun _ => none,
   fun _ => some (FileFormat.fmt 7), FileFormat.fmt 1⟩

/-- Ancestry in the event hierarchy is reflexive: every class casts to itself. -/
theorem isAncestorOf_refl (k : EventKind) : isAncestorOf k k = true := by
  induction k with
  | nil => rfl
  | cons a as ih => simp [isAncestorOf, ih]

/-- The source condition of `HasEvent` holds when queried with the stored
entry's own source. -/
theorem srcCond_self (s : SourcePtr) : (s == none || s == s) = true := by
  cases s <;> simp

/-- The linear search agrees with `List.any` of the loop's entry condition. -/
theorem hasEventIn_eq_any (l : List BucketEntry) (k : EventKind) (s : SourcePtr) :
    hasEventIn l k s = l.any (fun e => CheckEvent k e.1 && (s == none || s == e.2)) := by
  induction l with
  | nil => rfl
  | cons e rest ih =>
    simp only [hasEventIn, List.any_cons, ← ih]
    cases hc : (CheckEvent k e.1 && (s == none || s == e.2)) <;> simp [hc]

/-- The search succeeds iff some stored entry satisfies the loop condition,
read as a proposition. -/
theorem hasEventIn_iff (l : List BucketEntry) (k : EventKind) (s : SourcePtr) :
    hasEventIn l k s = true ↔
      ∃ e ∈ l, isAncestorOf k e.1 = true ∧ (s = none ∨ s = e.2) := by
  simp only [hasEventIn_eq_any, List.any_eq_true, CheckEvent, Bool.and_eq_true,
    Bool.or_eq_true, beq_iff_eq]

/-- A pair stored in the bucket is found by a query with that exact pair. -/
theorem hasEventIn_of_mem (l : List BucketEntry) (k : EventKind) (s : SourcePtr)
    (h : (k, s) ∈ l) : hasEventIn l k s = true := by
  rw [hasEventIn_eq_any]
  refine List.any_eq_true.mpr ⟨(k, s), h, ?_⟩
  simp [CheckEvent, isAncestorOf_refl, srcCond_self]

/-- A matching insertion is skipped. -/
theorem PutEvent_of_hasEvent (b : EventBucket) (k : EventKind) (s : SourcePtr)
    (h : b.HasEvent k s = true) : b.PutEvent k s = b := by
  simp [EventBucket.PutEvent, h]

/-- A non-matching insertion stores the pair. -/
theorem PutEvent_of_not_hasEvent (b : EventBucket) (k : EventKind) (s : SourcePtr)
    (h : b.HasEvent k s = false) : b.PutEvent k s = ⟨(k, s) :: b.m_Bucket⟩ := by
  simp [EventBucket.PutEvent, h]

/-- Query with the head entry's own pair succeeds. -/
theorem hasEventIn_cons_self (l : List BucketEntry) (k : EventKind) (s : SourcePtr) :
    hasEventIn ((k, s) :: l) k s = true :=
  hasEventIn_of_mem _ _ _ (List.mem_cons_self _ _)

/-- Inserting the same pair twice is the same as inserting it once. -/
theorem PutEvent_idem (b : EventBucket) (k : EventKind) (s : SourcePtr) :
    (b.PutEvent k s).PutEvent k s = b.PutEvent k s := by
  cases hc : b.HasEvent k s with
  | true => rw [PutEvent_of_hasEvent b k s hc, PutEvent_of_hasEvent b k s hc]
  | false =>
    rw [PutEvent_of_not_hasEvent b k s hc]
    exact PutEvent_of_hasEvent _ k s (hasEventIn_cons_self b.m_Bucket k s)

/-- Every reachable bucket state stores at most one entry per pair. -/
theorem Reachable.nodup {b : EventBucket} (h : Reachable b) : b.m_Bucket.Nodup := by
  induction h with
  | empty => exact List.nodup_nil
  | put b k s _ ih =>
    cases hc : b.HasEvent k s with
    | true => rw [PutEvent_of_hasEvent b k s hc]; exact ih
    | false =>
      rw [PutEvent_of_not_hasEvent b k s hc]
      refine List.nodup_cons.mpr ⟨fun hm => ?_, ih⟩
      have hfound := hasEventIn_of_mem b.m_Bucket k s hm
      rw [EventBucket.HasEvent] at hc
      rw [hfound] at hc
      exact Bool.true_eq_false.mp hc
  | clear b _ => exact List.nodup_nil

/-- A duplicate-free list holds each value at most once, for any lawful
equality test. -/
theorem nodup_count_le_one {α : Type} [BEq α] [LawfulBEq α] {l : List α} (h : l.Nodup) (a : α) :
    l.count a ≤ 1 := by
  induction l with
  | nil => simp
  | cons b rest ih =>
    rcases List.nodup_cons.mp h with ⟨hb, hrest⟩
    rw [List.count_cons]
    cases hab : b == a with
    | false => simp [hab]; simpa using ih hrest
    | true =>
      have hba : b = a := eq_of_beq hab
      subst hba
      have h0 : rest.count b = 0 := List.count_eq_zero.mpr hb
      simp [h0]

/-- A nonempty bucket stays nonempty under `PutEvent`. -/
theorem IsEmpty_false_PutEvent (b : EventBucket) (k : EventKind) (s : SourcePtr)
    (h : b.IsEmpty = false) : (b.PutEvent k s).IsEmpty = false := by
  cases hc : b.HasEvent k s with
  | true => rw [PutEvent_of_hasEvent b k s hc]; exact h
  | false => rw [PutEvent_of_not_hasEvent b k s hc]; rfl

/-- C1 counterexample: with the single stored entry `([0, 1], some 0)` — a
strict specialization of the queried kind `[0]` — the implementation's
`HasEvent` returns true, while the spec sentence's condition ("the stored
kind is equal to or a generalization of the queried kind") holds of no
stored entry, so the claimed equivalence fails at this input. -/
theorem hasEvent_spec_direction_cex :
    EventBucket.HasEvent ⟨[([0, 1], some 0)]⟩ [0] (some 0) = true ∧
    specHasEvent ⟨[([0, 1], some 0)]⟩ [0] (some 0) = false := by
  exact ⟨rfl, rfl⟩

/-- C1 (amended): `HasEvent(k, s)` returns true iff some stored entry
`(k', s')` satisfies hierarchical kind matching with the roles as the code
has them — the QUERIED kind `k` is equal to or a generalization of the
STORED kind `k'` — and the source condition (the queried source is NULL, or
equals the stored source). -/
theorem hasEvent_iff_generalizes_stored (b : EventBucket) (k : EventKind) (s : SourcePtr) :
    b.HasEvent k s = true ↔
      ∃ e ∈ b.m_Bucket, isAncestorOf k e.1 = true ∧ (s = none ∨ s = e.2) :=
  hasEventIn_iff b.m_Bucket k s

/-- C2: for kinds `k1` generalizing (or equal to) `k2` and any source `s`,
after `PutEvent(k2, s)` on an empty bucket, `HasEvent(k1, s)` is true, and
`HasEvent(k1, other)` for a non-NULL source `other` is true only if
`other = s`. -/
theorem putEvent_hasEvent_generalization (k1 k2 : EventKind) (s : SourcePtr)
    (h : isAncestorOf k1 k2 = true) :
    (EventBucket.empty.PutEvent k2 s).HasEvent k1 s = true ∧
    ∀ o : Nat, (EventBucket.empty.PutEvent k2 s).HasEvent k1 (some o) = true → some o = s := by
  have hput : EventBucket.empty.PutEvent k2 s = ⟨[(k2, s)]⟩ :=
    PutEvent_of_not_hasEvent _ _ _ rfl
  rw [hput]
  constructor
  · show hasEventIn [(k2, s)] k1 s = true
    simp [hasEventIn, CheckEvent, h, srcCond_self]
  · intro o ho
    rcases (hasEventIn_iff _ _ _).mp ho with ⟨e, he, _, hsrc⟩
    rcases List.mem_singleton.mp he with rfl
    rcases hsrc with h1 | h1
    · exact absurd h1 (by simp)
    · exact h1

/-- C2 witness: the concrete instance with `k1 = [0]` a generalization of
`k2 = [0, 1]` and source `5`. -/
theorem putEvent_hasEvent_generalization_witness :
    isAncestorOf [0] [0, 1] = true ∧
    ((EventBucket.empty.PutEvent [0, 1] (some 5)).HasEvent [0] (some 5) = true ∧
      ∀ o : Nat, (EventBucket.empty.PutEvent [0, 1] (some 5)).HasEvent [0] (some o) = true →
        some o = some 5) :=
  ⟨rfl, putEvent_hasEvent_generalization [0] [0, 1] (some 5) rfl⟩

/-- C3: every reachable bucket state stores at most one entry per distinct
`(event_kind, source_identity)` pair; the invariant is preserved by every
operation (`PutEvent`, `Clear`, and the `const` queries `HasEvent` and
`IsEmpty`); and `PutEvent` is idempotent — a second `PutEvent` with the same
pair changes nothing, so no pair ever has more than one entry. -/
theorem bucket_nodup_putEvent_idempotent (b : EventBucket) (k : EventKind) (s : SourcePtr)
    (h : Reachable b) :
    b.m_Bucket.Nodup ∧
    (b.PutEvent k s).m_Bucket.Nodup ∧
    b.Clear.m_Bucket.Nodup ∧
    (b.HasEventRun k s).2.m_Bucket.Nodup ∧
    b.IsEmptyRun.2.m_Bucket.Nodup ∧
    (b.PutEvent k s).PutEvent k s = b.PutEvent k s ∧
    ∀ p : BucketEntry, ((b.PutEvent k s).PutEvent k s).m_Bucket.count p ≤ 1 :=
  ⟨h.nodup, (Reachable.put b k s h).nodup, (Reachable.clear b h).nodup, h.nodup, h.nodup,
    PutEvent_idem b k s,
    fun p =>
      nodup_count_le_one (Reachable.put _ k s (Reachable.put b k s h)).nodup p⟩

/-- C3 witness: the concrete instance at the freshly constructed bucket with
pair `([0], some 1)`. -/
theorem bucket_nodup_putEvent_idempotent_witness :
    EventBucket.empty.m_Bucket.Nodup ∧
    (EventBucket.empty.PutEvent [0] (some 1)).m_Bucket.Nodup ∧
    EventBucket.empty.Clear.m_Bucket.Nodup ∧
    (EventBucket.empty.HasEventRun [0] (some 1)).2.m_Bucket.Nodup ∧
    EventBucket.empty.IsEmptyRun.2.m_Bucket.Nodup ∧
    (EventBucket.empty.PutEvent [0] (some 1)).PutEvent [0] (some 1) =
      EventBucket.empty.PutEvent [0] (some 1) ∧
    ∀ p : BucketEntry,
      ((EventBucket.empty.PutEvent [0] (some 1)).PutEvent [0] (some 1)).m_Bucket.count p ≤ 1 :=
  bucket_nodup_putEvent_idempotent EventBucket.empty [0] (some 1) Reachable.empty

/-- The flag of a trace step equals "the bucket is nonempty", provided it did
before the step: a put on an empty bucket never matches (so it both raises
the flag and fills the bucket), a put on a nonempty bucket leaves both true,
and a clear resets both. -/
theorem traceStep_inv (st : Bool × EventBucket) (op : BucketOp)
    (h : st.1 = !st.2.IsEmpty) : (traceStep st op).1 = !(traceStep st op).2.IsEmpty := by
  obtain ⟨flag, b⟩ := st
  cases op with
  | clearOp => rfl
  | putOp k s =>
    obtain ⟨l⟩ := b
    cases l with
    | nil =>
      simp only [EventBucket.IsEmpty] at h
      simp at h
      subst h
      rfl
    | cons e rest =>
      have hne : (EventBucket.mk (e :: rest)).IsEmpty = false := rfl
      rw [hne] at h
      simp at h
      subst h
      simp only [traceStep, Bool.true_or]
      rw [IsEmpty_false_PutEvent _ k s hne]
      rfl

/-- The trace-flag invariant holds along any whole operation history. -/
theorem foldTrace_inv (ops : List BucketOp) (st : Bool × EventBucket)
    (h : st.1 = !st.2.IsEmpty) :
    (ops.foldl traceStep st).1 = !(ops.foldl traceStep st).2.IsEmpty := by
  induction ops generalizing st with
  | nil => exact h
  | cons op rest ih => exact ih _ (traceStep_inv st op h)

/-- C8: immediately after `Clear()`, `IsEmpty()` returns true; and along any
history of operations from construction, `IsEmpty()` is true iff no
`PutEvent` call with a pair not already matched by the bucket contents has
occurred since the last `Clear` (or since construction) — the flag component
of `runTrace` records exactly that. -/
theorem clear_isEmpty_trace (b : EventBucket) (ops : List BucketOp) :
    b.Clear.IsEmpty = true ∧
    ((runTrace ops).2.IsEmpty = true ↔ (runTrace ops).1 = false) := by
  refine ⟨rfl, ?_⟩
  have h := foldTrace_inv ops (false, EventBucket.empty) rfl
  rw [runTrace, h]
  cases hE : (List.foldl traceStep (false, EventBucket.empty) ops).2.IsEmpty <;> simp

/-- C9: the NULL ("any") source is asymmetric and `PutEvent` order matters.
After `PutEvent(k, s)` with a non-NULL source on an empty bucket,
`HasEvent(k, NULL)` is true and a subsequent `PutEvent(k, NULL)` is a no-op;
after `PutEvent(k, NULL)` on an empty bucket, `HasEvent(k, s)` is false and a
subsequent `PutEvent(k, s)` stores a second entry, so the two orders end in
different bucket contents. -/
theorem putEvent_null_source_asymmetric (k : EventKind) (s : Nat) :
    (EventBucket.empty.PutEvent k (some s)).HasEvent k none = true ∧
    (EventBucket.empty.PutEvent k (some s)).PutEvent k none =
      EventBucket.empty.PutEvent k (some s) ∧
    (EventBucket.empty.PutEvent k none).HasEvent k (some s) = false ∧
    ((EventBucket.empty.PutEvent k none).PutEvent k (some s)).m_Bucket =
      [(k, some s), (k, none)] ∧
    (EventBucket.empty.PutEvent k (some s)).PutEvent k none ≠
      (EventBucket.empty.PutEvent k none).PutEvent k (some s) := by
  have h1 : EventBucket.empty.PutEvent k (some s) = ⟨[(k, some s)]⟩ :=
    PutEvent_of_not_hasEvent _ _ _ rfl
  have h2 : EventBucket.empty.PutEvent k none = ⟨[(k, none)]⟩ :=
    PutEvent_of_not_hasEvent _ _ _ rfl
  have hq1 : (EventBucket.mk [(k, some s)]).HasEvent k none = true := by
    show hasEventIn [(k, some s)] k none = true
    simp [hasEventIn, CheckEvent, isAncestorOf_refl]
  have hq2 : (EventBucket.mk [(k, none)]).HasEvent k (some s) = false := by
    show hasEventIn [(k, none)] k (some s) = false
    simp [hasEventIn]
  have h3 : (EventBucket.mk [(k, none)]).PutEvent k (some s) =
      ⟨[(k, some s), (k, none)]⟩ :=
    PutEvent_of_not_hasEvent _ _ _ hq2
  refine ⟨h1 ▸ hq1, ?_, h2 ▸ hq2, ?_, ?_⟩
  · rw [h1, PutEvent_of_hasEvent _ _ _ hq1]
  · rw [h2, h3]
  · rw [h1, h2, PutEvent_of_hasEvent _ _ _ hq1, h3]
    intro hEq
    simp at hEq

/-- C10: `HasEvent` and `IsEmpty` are pure queries — their state-transformer
embeddings return the receiver unchanged — and `PutEvent` never removes or
replaces stored entries: the old contents survive as a sublist, so the
bucket size never decreases except through `Clear`, and grows by at most one
per call. -/
theorem bucket_queries_pure_putEvent_monotone (b : EventBucket) (k : EventKind) (s : SourcePtr) :
    (b.HasEventRun k s).2 = b ∧
    b.IsEmptyRun.2 = b ∧
    b.m_Bucket.Sublist (b.PutEvent k s).m_Bucket ∧
    b.m_Bucket.length ≤ (b.PutEvent k s).m_Bucket.length ∧
    (b.PutEvent k s).m_Bucket.length ≤ b.m_Bucket.length + 1 := by
  have hsub : b.m_Bucket.Sublist (b.PutEvent k s).m_Bucket := by
    cases hc : b.HasEvent k s with
    | true => rw [PutEvent_of_hasEvent b k s hc]
    | false =>
      rw [PutEvent_of_not_hasEvent b k s hc]
      exact (List.Sublist.refl _).cons _
  refine ⟨rfl, rfl, hsub, hsub.length_le, ?_⟩
  cases hc : b.HasEvent k s with
  | true => rw [PutEvent_of_hasEvent b k s hc]; exact Nat.le_succ _
  | false => rw [PutEvent_of_not_hasEvent b k s hc]; exact Nat.le_refl _

/-- C5: in Load mode, `GuessFileFormat` on a path that does not exist on disk
returns the undetermined format (`FORMAT_COUNT`) together with
`file_exists = false`; the embedding is a total function, so no exception can
be raised. -/
theorem guessFileFormat_load_missing_file (env : DetectorEnv) (fname : String)
    (h : env.fileExistsOn fname = false) :
    GuessFileFormat env Mode.LOAD fname = (FileFormat.FORMAT_COUNT, false) := by
  simp [GuessFileFormat, h]

/-- C5 witness: the concrete environment with no existing files. -/
theorem guessFileFormat_load_missing_file_witness :
    envMissing.fileExistsOn fnameA = false ∧
    GuessFileFormat envMissing Mode.LOAD fnameA = (FileFormat.FORMAT_COUNT, false) :=
  ⟨rfl, guessFileFormat_load_missing_file envMissing fnameA rfl⟩

/-- C6 counterexample: a Load-mode query for a non-existent path that has a
hint returns `FORMAT_COUNT`, not the hinted format — the Load-mode existence
check precedes the hint lookup, so the hint does not always win. -/
theorem guessFileFormat_hint_cex :
    envHinted.hints fnameA = some (FileFormat.fmt 3) ∧
    GuessFileFormat envHinted Mode.LOAD fnameA = (FileFormat.FORMAT_COUNT, false) ∧
    ((FileFormat.FORMAT_COUNT == FileFormat.fmt 3) = false) := by
  refine ⟨rfl, ?_, rfl⟩
  simp [GuessFileFormat, envHinted]

/-- C6 (amended): the hint is consulted first and wins over magic number and
extension, but only once the Load-mode existence gate has passed: for a
hinted path, `GuessFileFormat` returns the hinted format whenever the mode is
Save or the file exists.  After the hint, the magic number (sniffed only in
Load mode on an existing file) is next, and extension matching with the
save-mode default fallback comes last. -/
theorem guessFileFormat_hint_order (env : DetectorEnv) (mode : Mode) (fname : String)
    (f g : FileFormat) :
    (env.hints fname = some f → (mode = Mode.SAVE ∨ env.fileExistsOn fname = true) →
      (GuessFileFormat env mode fname).1 = f) ∧
    (env.hints fname = none → env.fileExistsOn fname = true →
      env.sniffMagic fname = some g → mode = Mode.LOAD →
      (GuessFileFormat env mode fname).1 = g) ∧
    (env.hints fname = none →
      (mode = Mode.SAVE ∨ (env.fileExistsOn fname = true ∧ env.sniffMagic fname = none)) →
      (GuessFileFormat env mode fname).1 = extensionFallback env mode fname) := by
  refine ⟨?_, ?_, ?_⟩
  · intro hh hex
    rcases hex with hm | hex
    · subst hm
      simp [GuessFileFormat, hh]
    · cases mode with
      | LOAD => simp [GuessFileFormat, hh, hex]
      | SAVE => simp [GuessFileFormat, hh]
  · intro hn hex hm hmode
    subst hmode
    simp [GuessFileFormat, hn, hex, hm]
  · intro hn hcase
    rcases hcase with hm | ⟨hex, hmag⟩
    · subst hm
      cases he : env.extMatch fname <;>
        simp [GuessFileFormat, extensionFallback, hn, he]
    · cases mode with
      | LOAD =>
        cases he : env.extMatch fname <;>
          simp [GuessFileFormat, extensionFallback, hn, hex, hmag, he]
      | SAVE =>
        cases he : env.extMatch fname <;>
          simp [GuessFileFormat, extensionFallback, hn, he]

/-- C6 witness: in Save mode, the hinted format wins for the concrete hinted
environment even though the extension table says otherwise. -/
theorem guessFileFormat_hint_order_witness :
    envHinted.hints fnameA = some (FileFormat.fmt 3) ∧
    envHinted.extMatch fnameA = some (FileFormat.fmt 7) ∧
    (GuessFileFormat envHinted Mode.SAVE fnameA).1 = FileFormat.fmt 3 :=
  ⟨rfl, rfl,
    (guessFileFormat_hint_order envHinted Mode.SAVE fnameA (FileFormat.fmt 3)
      (FileFormat.fmt 0)).1 rfl (Or.inl rfl)⟩

/-- C4 counterexample: from a state holding a previously loaded image (and no
`Reset` in between), a `LoadImage` whose decode fails leaves the state
untouched — so `IsImageLoaded()` is still true, not false as the claim,
quantified over every model state, asserts. -/
theorem loadImage_isImageLoaded_cex :
    envFail.decode fnameA = Except.error msgBad ∧
    (LoadImage envFail stPrior fnameA).2 = stPrior ∧
    IsImageLoaded (LoadImage envFail stPrior fnameA).2 = true :=
  ⟨rfl, rfl, rfl⟩

/-- C4 (amended): a failed `LoadImage` leaves the loaded-image handle
untouched — hence `IsImageLoaded()` remains false whenever it was false
before the call, in particular right after a `Reset` — and leaves no
half-updated state: a decode failure preserves the whole state and surfaces
`DecodeError` with the diagnostic, so after a `Reset` following an earlier
successful load the warnings list holds no stale entries (it is empty); a
validation failure keeps the handle, surfaces `ValidationError`, and appends
only the decode warnings and the validation diagnostic. -/
theorem loadImage_failure_frame (env : LoadEnv) (st : WizardState) (fname : String) :
    (∀ msg, env.decode fname = Except.error msg →
      (LoadImage env st fname).1 = Except.error (LoadError.DecodeError msg) ∧
      (LoadImage env st fname).2 = st ∧
      (IsImageLoaded st = false → IsImageLoaded (LoadImage env st fname).2 = false) ∧
      (LoadImage env (Reset st) fname).2.warnings = []) ∧
    (∀ img warns, env.decode fname = Except.ok (img, warns) →
      env.checkValidity img = false →
      (LoadImage env st fname).1 = Except.error LoadError.ValidationError ∧
      (LoadImage env st fname).2.loadedImage = st.loadedImage ∧
      (LoadImage env st fname).2.warnings = st.warnings ++ warns ++ [env.validityMsg]) := by
  constructor
  · intro msg hd
    refine ⟨?_, ?_, ?_, ?_⟩ <;> simp [LoadImage, hd, Reset]
  · intro img warns hd hv
    refine ⟨?_, ?_, ?_⟩ <;> simp [LoadImage, hd, hv]

/-- C4 witness: the concrete failing decode applied after the prior-load
state and after its `Reset`. -/
theorem loadImage_failure_frame_witness :
    envFail.decode fnameA = Except.error msgBad ∧
    (LoadImage envFail stPrior fnameA).2 = stPrior ∧
    (LoadImage envFail (Reset stPrior) fnameA).2.warnings = [] :=
  ⟨rfl, ((loadImage_failure_frame envFail stPrior fnameA).1 msgBad rfl).2.1,
    ((loadImage_failure_frame envFail stPrior fnameA).1 msgBad rfl).2.2.2⟩

/-- C7: `LoadDicomSeries` fails with `IndexOutOfRange` exactly when the index
is negative or at least the number of enumerated series, and otherwise
delegates the in-range index to the guided-I/O service to materialize the
image. -/
theorem loadDicomSeries_bounds (mat : Nat → Nat) (n : Nat) (i : Int) :
    (LoadDicomSeries mat n i = Except.error DicomError.IndexOutOfRange ↔
      (i < 0 ∨ (n : Int) ≤ i)) ∧
    ((0 ≤ i ∧ i < (n : Int)) → LoadDicomSeries mat n i = Except.ok (mat i.toNat)) := by
  constructor
  · rw [LoadDicomSeries]
    split
    next hin =>
      constructor
      · intro h
        exact absurd h (by simp)
      · intro h
        exfalso
        omega
    next hout =>
      constructor
      · intro _
        omega
      · intro _
        rfl
  · intro h
    rw [LoadDicomSeries, if_pos h]

/-- C7 witness: with three enumerated series, index 3 and index -1 fail with
`IndexOutOfRange` while index 1 materializes the second series. -/
theorem loadDicomSeries_bounds_witness :
    LoadDicomSeries id 3 3 = Except.error DicomError.IndexOutOfRange ∧
    LoadDicomSeries id 3 (-1) = Except.error DicomError.IndexOutOfRange ∧
    LoadDicomSeries id 3 1 = Except.ok 1 :=
  ⟨(loadDicomSeries_bounds id 3 3).1.mpr (by omega),
    (loadDicomSeries_bounds id 3 (-1)).1.mpr (by omega),
    (loadDicomSeries_bounds id 3 1).2 (by omega)⟩
